import Mathlib

/-!
Verification of the heredity inference engine (WEEK2/heredity/heredity.py).

The program performs exact Bayesian inference by enumeration: for every
admissible hidden-state assignment (a partition of the population into
one-gene / two-gene / zero-gene groups plus a trait subset) it computes a
joint probability, accumulates per-person marginals, and normalizes.

The embedding below mirrors the Python source:
  * a `Person` is a row of the loaded CSV data: name, optional mother and
    father references, optional observed trait;
  * sets of names are `List String`, membership is `List.contains`
    (Python's `in`);
  * Python floats are modelled as exact rationals `ℚ`;
  * Python's raising behaviour of `normalize` (division by a zero sum
    raises ZeroDivisionError) is modelled with `Except PyError`.
-/

namespace Heredity

/-- One individual of the loaded population, as produced by load_data:
a name, optional mother and father names, and tri-state trait evidence. -/
structure Person where
  name : String
  mother : Option String
  father : Option String
  trait : Option Bool
deriving DecidableEq, Repr

/-- PROBS["gene"]: unconditional prior over the gene count. -/
def PROBS_gene : Nat → ℚ
  | 2 => 1/100
  | 1 => 3/100
  | _ => 96/100

/-- PROBS["trait"]: conditional table P(trait = t given gene = g). -/
def PROBS_trait : Nat → Bool → ℚ
  | 2, true => 65/100
  | 2, false => 35/100
  | 1, true => 56/100
  | 1, false => 44/100
  | _, true => 1/100
  | _, false => 99/100

/-- PROBS["mutation"]: the mutation probability. -/
def PROBS_mutation : ℚ := 1/100

/-- Gene count of a person under a partition, as written in both
joint_probability and update:
1 if person in one_gene else 2 if person in two_genes else 0. -/
def geneCount (one_gene two_genes : List String) (p : String) : Nat :=
  if one_gene.contains p then 1 else if two_genes.contains p then 2 else 0

/-- The per-parent transmission probability of joint_probability
(lines 154-160): 0.5 if the parent is in one_gene, 1 - mutation if in
two_genes, and the mutation rate otherwise. -/
def inheritProb (one_gene two_genes : List String) (parent : String) : ℚ :=
  if one_gene.contains parent then 1/2
  else if two_genes.contains parent then 1 - PROBS_mutation
  else PROBS_mutation

/-- Gene-count factor of one person in joint_probability: when both
parents are recorded (lines 148-171) the two transmission probabilities
are combined according to the child's own gene count; otherwise
(line 173) the unconditional prior for the person's gene count. -/
def geneTerm (one_gene two_genes : List String) (per : Person) : ℚ :=
  match per.mother, per.father with
  | some m, some f =>
    let pm := inheritProb one_gene two_genes m
    let pf := inheritProb one_gene two_genes f
    match geneCount one_gene two_genes per.name with
    | 1 => pm * (1 - pf) + (1 - pm) * pf
    | 2 => pm * pf
    | _ => (1 - pm) * (1 - pf)
  | _, _ => PROBS_gene (geneCount one_gene two_genes per.name)

/-- joint_probability (lines 131-177): running product over all people of
the gene-count factor times the trait factor
PROBS["trait"][gene count][has trait]. -/
def joint_probability (people : List Person)
    (one_gene two_genes have_trait : List String) : ℚ :=
  people.foldl (fun acc per =>
    acc * (geneTerm one_gene two_genes per *
      PROBS_trait (geneCount one_gene two_genes per.name)
        (have_trait.contains per.name))) 1

/-- Accumulated distributions of one person: the "gene" buckets 2, 1, 0
and the "trait" buckets True, False of the probabilities dictionary. -/
structure Dist where
  gene0 : ℚ
  gene1 : ℚ
  gene2 : ℚ
  traitT : ℚ
  traitF : ℚ
deriving DecidableEq, Repr

/-- The belief state before any update: every bucket is 0 (main,
lines 48-61). -/
def initProbs : String → Dist := fun _ => ⟨0, 0, 0, 0, 0⟩

/-- update (lines 180-192): for every person add p to the gene bucket
selected by the person's gene count and to the trait bucket selected by
trait membership. -/
def update (probs : String → Dist)
    (one_gene two_genes have_trait : List String) (p : ℚ) : String → Dist :=
  fun name =>
    let d := probs name
    let g := geneCount one_gene two_genes name
    let t := have_trait.contains name
    { gene0 := d.gene0 + if g = 0 then p else 0
      gene1 := d.gene1 + if g = 1 then p else 0
      gene2 := d.gene2 + if g = 2 then p else 0
      traitT := d.traitT + if t then p else 0
      traitF := d.traitF + if t then 0 else p }

/-- Sum of the three gene buckets, in the iteration order of the Python
dictionary (2, 1, 0). -/
def gsum (d : Dist) : ℚ := d.gene2 + d.gene1 + d.gene0

/-- Sum of the two trait buckets (True, False). -/
def tsum (d : Dist) : ℚ := d.traitT + d.traitF

/-- Errors a run can surface. zeroDivision is Python's ZeroDivisionError,
raised by the division in normalize when a distribution sums to 0 (Python
raises on 0/0 for ints and floats alike, it does not produce NaN).
unsatisfiableEvidence is the distinct designated error demanded by the
spec for jointly unsatisfiable evidence; the source contains no raise
statement, so the embedding never produces it. -/
inductive PyError where
  | zeroDivision
  | unsatisfiableEvidence
deriving DecidableEq, Repr

/-- Normalization of one person's two distributions (normalize,
lines 202-207): each bucket is divided by its own distribution's sum;
a zero sum raises ZeroDivisionError at the first division. The "gene"
statistic is processed before "trait", as in the source. -/
def normalizeDist (d : Dist) : Except PyError Dist :=
  if gsum d = 0 then .error .zeroDivision
  else if tsum d = 0 then .error .zeroDivision
  else .ok
    { gene0 := d.gene0 / gsum d
      gene1 := d.gene1 / gsum d
      gene2 := d.gene2 / gsum d
      traitT := d.traitT / tsum d
      traitF := d.traitF / tsum d }

/-- normalize (lines 197-209): process every person in order, stopping at
the first ZeroDivisionError, and return the per-person normalized
distributions. -/
def normalize : List Person → (String → Dist) →
    Except PyError (List (String × Dist))
  | [], _ => .ok []
  | per :: rest, probs =>
    match normalizeDist (probs per.name) with
    | .error e => .error e
    | .ok d =>
      match normalize rest probs with
      | .error e => .error e
      | .ok out => .ok ((per.name, d) :: out)

/-- powerset (lines 119-128): the list of all subsets of a list of names.
The Python version enumerates by increasing size; the enumeration order
is irrelevant because accumulation is commutative addition. -/
def powerset : List String → List (List String)
  | [] => [[]]
  | x :: xs => powerset xs ++ (powerset xs).map (fun s => x :: s)

/-- The names of the population (set(people) in main). -/
def names (people : List Person) : List String := people.map Person.name

/-- fails_evidence (main, lines 68-72): some person has recorded trait
evidence that differs from membership in the candidate trait subset. -/
def fails_evidence (people : List Person) (have_trait : List String) : Bool :=
  people.any (fun per =>
    match per.trait with
    | some t => t != have_trait.contains per.name
    | none => false)

/-- Innermost loop of main (lines 78-82): for a fixed trait subset and
one_gene set, score every two_genes subset of the remaining names. -/
def scoreTwo (people : List Person) (one_gene have_trait : List String)
    (probs : String → Dist) : String → Dist :=
  (powerset ((names people).filter (fun n => !(one_gene.contains n)))).foldl
    (fun pr two_genes =>
      update pr one_gene two_genes have_trait
        (joint_probability people one_gene two_genes have_trait)) probs

/-- Middle loop of main (line 77): iterate one_gene over all subsets of
the names. -/
def scoreGene (people : List Person) (have_trait : List String)
    (probs : String → Dist) : String → Dist :=
  (powerset (names people)).foldl
    (fun pr one_gene => scoreTwo people one_gene have_trait pr) probs

/-- Body of the outer loop of main (lines 65-82): skip a trait subset
that violates known evidence, otherwise score all gene assignments. -/
def scoreTrait (people : List Person) (probs : String → Dist)
    (have_trait : List String) : String → Dist :=
  if fails_evidence people have_trait then probs
  else scoreGene people have_trait probs

/-- The accumulation phase of main: fold the outer loop over all trait
subsets starting from the all-zero belief state. -/
def accumulate (people : List Person) : String → Dist :=
  (powerset (names people)).foldl (scoreTrait people) initProbs

/-- The whole inference run of main (lines 48-85): accumulate, then
normalize. -/
def main_result (people : List Person) : Except PyError (List (String × Dist)) :=
  normalize people (accumulate people)

/-- Transmission probability as a function of the parent's gene COUNT, as
the spec words it: 0.5 for one copy, 1 - mutation for two copies,
mutation for zero copies. -/
def transmit (g : Nat) : ℚ :=
  if g = 1 then 1/2 else if g = 2 then 1 - PROBS_mutation else PROBS_mutation

/-- Gene-count factor as claim C1 words it: the unconditional prior when
the individual is a founder (no parents in the model), otherwise the
combination of both parents' count-derived transmission probabilities
according to the child's own count. -/
def specGeneTerm (one_gene two_genes : List String) (per : Person) : ℚ :=
  if per.mother = none ∧ per.father = none then
    PROBS_gene (geneCount one_gene two_genes per.name)
  else
    let mt := transmit (geneCount one_gene two_genes (per.mother.getD ""))
    let ft := transmit (geneCount one_gene two_genes (per.father.getD ""))
    match geneCount one_gene two_genes per.name with
    | 0 => (1 - mt) * (1 - ft)
    | 1 => mt * (1 - ft) + (1 - mt) * ft
    | _ => mt * ft

/-- Result of normalizing one bucket structure: every bucket divided by
its own distribution's pre-normalization sum. -/
def normDist (d : Dist) : Dist :=
  { gene0 := d.gene0 / gsum d
    gene1 := d.gene1 / gsum d
    gene2 := d.gene2 / gsum d
    traitT := d.traitT / tsum d
    traitF := d.traitF / tsum d }

/-- A sequence of update calls, each carrying the two gene sets, the
trait subset and the joint probability, applied to the all-zero belief
state. -/
def applyCalls (calls : List (List String × List String × List String × ℚ)) :
    String → Dist :=
  calls.foldl (fun probs c => update probs c.1 c.2.1 c.2.2.1 c.2.2.2) initProbs

/-- Two persons are equal up to exchanging which parent is recorded as
mother and which as father. -/
def SwapRel (p q : Person) : Prop :=
  q.name = p.name ∧ q.trait = p.trait ∧
    ((q.mother = p.mother ∧ q.father = p.father) ∨
     (q.mother = p.father ∧ q.father = p.mother))

/-- A three-person family: two founders and a child with trait evidence. -/
def famA : List Person :=
  [⟨"Alice", none, none, none⟩, ⟨"Bob", none, none, none⟩,
   ⟨"Carl", some "Alice", some "Bob", some true⟩]

/-- famA with the roles of the two parents of the child exchanged. -/
def famASwap : List Person :=
  [⟨"Alice", none, none, none⟩, ⟨"Bob", none, none, none⟩,
   ⟨"Carl", some "Bob", some "Alice", some true⟩]

/-- A single founder observed to exhibit the trait. -/
def popTraitTrue : List Person := [⟨"a", none, none, some true⟩]

/-- A single founder with no trait evidence. -/
def popFounder : List Person := [⟨"a", none, none, none⟩]

theorem geneCount_cases (one_gene two_genes : List String) (p : String) :
    geneCount one_gene two_genes p = 0 ∨ geneCount one_gene two_genes p = 1 ∨
      geneCount one_gene two_genes p = 2 := by
  unfold geneCount
  split
  · exact Or.inr (Or.inl rfl)
  · split
    · exact Or.inr (Or.inr rfl)
    · exact Or.inl rfl

theorem inheritProb_eq_transmit (one_gene two_genes : List String) (p : String) :
    inheritProb one_gene two_genes p = transmit (geneCount one_gene two_genes p) := by
  unfold inheritProb transmit geneCount
  split
  · simp
  · split <;> simp

theorem foldl_congr_mem {α β : Type} (l : List α) (f g : β → α → β) (b : β)
    (h : ∀ acc x, x ∈ l → f acc x = g acc x) : l.foldl f b = l.foldl g b := by
  induction l generalizing b with
  | nil => rfl
  | cons hd tl ih =>
    simp only [List.foldl_cons]
    rw [h b hd (List.mem_cons_self hd tl)]
    exact ih (g b hd) (fun acc x hx => h acc x (List.mem_cons_of_mem hd hx))

theorem geneTerm_eq_spec (one_gene two_genes : List String) (per : Person)
    (h : per.mother.isSome = per.father.isSome) :
    geneTerm one_gene two_genes per = specGeneTerm one_gene two_genes per := by
  rcases per with ⟨nm, mo, fa, tr⟩
  rcases mo with _ | m
  · rcases fa with _ | f
    · simp [geneTerm, specGeneTerm]
    · simp [Option.isSome] at h
  · rcases fa with _ | f
    · simp [Option.isSome] at h
    · show geneTerm one_gene two_genes ⟨nm, some m, some f, tr⟩ = _
      unfold geneTerm specGeneTerm
      simp only [Option.getD_some]
      rw [inheritProb_eq_transmit, inheritProb_eq_transmit]
      rcases geneCount_cases one_gene two_genes nm with h0 | h1 | h2 <;>
        simp_all

/-- C1: joint_probability is the product over all individuals of the
gene term (prior for founders, two-parent inheritance term otherwise,
both parents read from the same assignment) times the trait term
P(trait = t given gene = g) for the individual's own gene count and
trait value. The hypothesis is the input contract of the data model:
parent references are both absent or both present. -/
theorem joint_probability_eq_product (people : List Person)
    (one_gene two_genes have_trait : List String)
    (h : ∀ per ∈ people, per.mother.isSome = per.father.isSome) :
    joint_probability people one_gene two_genes have_trait =
      (people.map (fun per => specGeneTerm one_gene two_genes per *
        PROBS_trait (geneCount one_gene two_genes per.name)
          (have_trait.contains per.name))).prod := by
  unfold joint_probability
  rw [List.prod_eq_foldl, List.foldl_map]
  exact foldl_congr_mem people _ _ 1 (fun acc per hper => by
    rw [geneTerm_eq_spec one_gene two_genes per (h per hper)])

/-- C1 witness: the three-person family famA satisfies the parent
contract and the product identity at a concrete assignment. -/
theorem joint_probability_eq_product_witness :
    (∀ per ∈ famA, per.mother.isSome = per.father.isSome) ∧
    joint_probability famA ["Carl"] ["Alice"] ["Carl"] =
      (famA.map (fun per => specGeneTerm ["Carl"] ["Alice"] per *
        PROBS_trait (geneCount ["Carl"] ["Alice"] per.name)
          (List.contains ["Carl"] per.name))).prod :=
  ⟨by decide, joint_probability_eq_product famA ["Carl"] ["Alice"] ["Carl"]
    (by decide)⟩

/-- C2: for an individual with both parents modeled, each parent's
transmission probability is a function of that parent's gene count in
the same assignment (0.5 for one copy, 1 - mutation for two, mutation
for zero), and the gene factor combines the two transmission
probabilities according to the child's count: complement product for 0,
the exclusive-or sum for 1, the plain product for 2. -/
theorem geneTerm_inheritance (one_gene two_genes : List String)
    (per : Person) (m f : String)
    (hm : per.mother = some m) (hf : per.father = some f) :
    transmit 1 = 1/2 ∧ transmit 2 = 1 - PROBS_mutation ∧
    transmit 0 = PROBS_mutation ∧
    (∀ parent, inheritProb one_gene two_genes parent =
      transmit (geneCount one_gene two_genes parent)) ∧
    geneTerm one_gene two_genes per =
      (let mt := transmit (geneCount one_gene two_genes m)
       let ft := transmit (geneCount one_gene two_genes f)
       match geneCount one_gene two_genes per.name with
       | 0 => (1 - mt) * (1 - ft)
       | 1 => mt * (1 - ft) + (1 - mt) * ft
       | _ => mt * ft) := by
  refine ⟨by simp [transmit], by simp [transmit], by simp [transmit],
    inheritProb_eq_transmit one_gene two_genes, ?_⟩
  rcases per with ⟨nm, mo, fa, tr⟩
  cases hm
  cases hf
  show geneTerm one_gene two_genes ⟨nm, some m, some f, tr⟩ = _
  unfold geneTerm
  dsimp only
  rw [inheritProb_eq_transmit, inheritProb_eq_transmit]
  rcases geneCount_cases one_gene two_genes nm with h0 | h1 | h2 <;> simp_all

/-- C2 witness: concrete child with both parents recorded. -/
theorem geneTerm_inheritance_witness :
    transmit 1 = 1/2 ∧ transmit 2 = 1 - PROBS_mutation ∧
    transmit 0 = PROBS_mutation ∧
    (∀ parent, inheritProb ["Carl"] ["Alice"] parent =
      transmit (geneCount ["Carl"] ["Alice"] parent)) ∧
    geneTerm ["Carl"] ["Alice"] ⟨"Carl", some "Alice", some "Bob", some true⟩ =
      (let mt := transmit (geneCount ["Carl"] ["Alice"] "Alice")
       let ft := transmit (geneCount ["Carl"] ["Alice"] "Bob")
       match geneCount ["Carl"] ["Alice"] "Carl" with
       | 0 => (1 - mt) * (1 - ft)
       | 1 => mt * (1 - ft) + (1 - mt) * ft
       | _ => mt * ft) :=
  geneTerm_inheritance ["Carl"] ["Alice"]
    ⟨"Carl", some "Alice", some "Bob", some true⟩ "Alice" "Bob" rfl rfl

/-- C3: a candidate trait subset is rejected (fails_evidence, the guard
under which main skips scoring) exactly when some individual with known
trait evidence contradicts membership: known true but absent, or known
false but present; and the driver scores a subset exactly when the
guard is false. -/
theorem fails_evidence_iff (people : List Person) (have_trait : List String) :
    (fails_evidence people have_trait = true ↔
      ∃ per ∈ people,
        (per.trait = some true ∧ have_trait.contains per.name = false) ∨
        (per.trait = some false ∧ have_trait.contains per.name = true)) ∧
    ∀ probs, scoreTrait people probs have_trait =
      if fails_evidence people have_trait then probs
      else scoreGene people have_trait probs := by
  constructor
  · unfold fails_evidence
    rw [List.any_eq_true]
    constructor
    · rintro ⟨per, hper, hmatch⟩
      refine ⟨per, hper, ?_⟩
      rcases htr : per.trait with _ | t
      · rw [htr] at hmatch
        simp at hmatch
      · rw [htr] at hmatch
        cases t <;> cases hb : have_trait.contains per.name <;>
          simp_all
    · rintro ⟨per, hper, hcase⟩
      refine ⟨per, hper, ?_⟩
      rcases hcase with ⟨htr, hb⟩ | ⟨htr, hb⟩ <;> rw [htr, hb] <;> rfl
  · intro probs
    rfl

/-- C9: no disjointness is required of one_gene and two_genes: a person
in both sets is counted as having exactly one gene copy, so update adds
the mass to the one-copy bucket only and a founder with that name
contributes the prior at count 1; no error is possible since geneCount
is total. -/
theorem one_gene_precedence (one_gene two_genes have_trait : List String)
    (p : String) (probs : String → Dist) (q : ℚ)
    (h1 : one_gene.contains p = true) (h2 : two_genes.contains p = true) :
    geneCount one_gene two_genes p = 1 ∧
    (update probs one_gene two_genes have_trait q p).gene0 = (probs p).gene0 ∧
    (update probs one_gene two_genes have_trait q p).gene1 =
      (probs p).gene1 + q ∧
    (update probs one_gene two_genes have_trait q p).gene2 = (probs p).gene2 ∧
    (∀ per : Person, per.name = p → per.mother = none → per.father = none →
      geneTerm one_gene two_genes per = PROBS_gene 1) := by
  have hg : geneCount one_gene two_genes p = 1 := by
    unfold geneCount
    rw [h1]
    rfl
  refine ⟨hg, ?_, ?_, ?_, ?_⟩
  · simp [update, hg]
  · simp [update, hg]
  · simp [update, hg]
  · intro per hname hmo hfa
    rcases per with ⟨nm, mo, fa, tr⟩
    cases hmo
    cases hfa
    cases hname
    simp [geneTerm, hg]

/-- C9 witness: a name placed in both gene sets. -/
theorem one_gene_precedence_witness :
    geneCount ["x"] ["x"] "x" = 1 ∧
    (update initProbs ["x"] ["x"] [] 5 "x").gene0 = (initProbs "x").gene0 ∧
    (update initProbs ["x"] ["x"] [] 5 "x").gene1 = (initProbs "x").gene1 + 5 ∧
    (update initProbs ["x"] ["x"] [] 5 "x").gene2 = (initProbs "x").gene2 ∧
    (∀ per : Person, per.name = "x" → per.mother = none → per.father = none →
      geneTerm ["x"] ["x"] per = PROBS_gene 1) :=
  one_gene_precedence ["x"] ["x"] [] "x" initProbs 5 (by decide) (by decide)

theorem update_gsum (probs : String → Dist)
    (one_gene two_genes have_trait : List String) (q : ℚ) (name : String) :
    gsum (update probs one_gene two_genes have_trait q name) =
      gsum (probs name) + q := by
  rcases geneCount_cases one_gene two_genes name with h | h | h <;>
    simp [update, gsum, h] <;> ring

theorem update_tsum (probs : String → Dist)
    (one_gene two_genes have_trait : List String) (q : ℚ) (name : String) :
    tsum (update probs one_gene two_genes have_trait q name) =
      tsum (probs name) + q := by
  by_cases h : name ∈ have_trait <;> simp [update, tsum, h] <;> ring

theorem applyCalls_balance
    (calls : List (List String × List String × List String × ℚ))
    (probs : String → Dist)
    (h : ∀ name, gsum (probs name) = tsum (probs name)) :
    ∀ name, gsum ((calls.foldl
        (fun pr c => update pr c.1 c.2.1 c.2.2.1 c.2.2.2) probs) name) =
      tsum ((calls.foldl
        (fun pr c => update pr c.1 c.2.1 c.2.2.1 c.2.2.2) probs) name) := by
  induction calls generalizing probs with
  | nil => exact h
  | cons hd tl ih =>
    intro name
    simp only [List.foldl_cons]
    refine ih _ (fun nm => ?_) name
    rw [update_gsum, update_tsum, h nm]

/-- C10: every update adds the mass p to exactly one gene bucket and
exactly one trait bucket of every person, so from the all-zero belief
state any sequence of update calls leaves, for every person, the sum of
the three gene buckets equal to the sum of the two trait buckets. -/
theorem update_exactly_one_bucket :
    (∀ (probs : String → Dist) one_gene two_genes have_trait (q : ℚ)
      (name : String),
      ((update probs one_gene two_genes have_trait q name).gene0 =
          (probs name).gene0 + q ∧
        (update probs one_gene two_genes have_trait q name).gene1 =
          (probs name).gene1 ∧
        (update probs one_gene two_genes have_trait q name).gene2 =
          (probs name).gene2) ∨
      ((update probs one_gene two_genes have_trait q name).gene0 =
          (probs name).gene0 ∧
        (update probs one_gene two_genes have_trait q name).gene1 =
          (probs name).gene1 + q ∧
        (update probs one_gene two_genes have_trait q name).gene2 =
          (probs name).gene2) ∨
      ((update probs one_gene two_genes have_trait q name).gene0 =
          (probs name).gene0 ∧
        (update probs one_gene two_genes have_trait q name).gene1 =
          (probs name).gene1 ∧
        (update probs one_gene two_genes have_trait q name).gene2 =
          (probs name).gene2 + q)) ∧
    (∀ (probs : String → Dist) one_gene two_genes have_trait (q : ℚ)
      (name : String),
      ((update probs one_gene two_genes have_trait q name).traitT =
          (probs name).traitT + q ∧
        (update probs one_gene two_genes have_trait q name).traitF =
          (probs name).traitF) ∨
      ((update probs one_gene two_genes have_trait q name).traitT =
          (probs name).traitT ∧
        (update probs one_gene two_genes have_trait q name).traitF =
          (probs name).traitF + q)) ∧
    (∀ (calls : List (List String × List String × List String × ℚ))
      (name : String),
      gsum (applyCalls calls name) = tsum (applyCalls calls name)) := by
  refine ⟨?_, ?_, ?_⟩
  · intro probs one_gene two_genes have_trait q name
    rcases geneCount_cases one_gene two_genes name with h | h | h
    · exact Or.inl (by simp [update, h])
    · exact Or.inr (Or.inl (by simp [update, h]))
    · exact Or.inr (Or.inr (by simp [update, h]))
  · intro probs one_gene two_genes have_trait q name
    by_cases h : name ∈ have_trait
    · exact Or.inl (by simp [update, h])
    · exact Or.inr (by simp [update, h])
  · intro calls name
    exact applyCalls_balance calls initProbs
      (fun _ => by simp [initProbs, gsum, tsum]) name

theorem normalizeDist_ok_of_ne (d : Dist) (h1 : gsum d ≠ 0) (h2 : tsum d ≠ 0) :
    normalizeDist d = .ok (normDist d) := by
  unfold normalizeDist normDist
  rw [if_neg h1, if_neg h2]

theorem normDist_gsum (d : Dist) (h1 : gsum d ≠ 0) : gsum (normDist d) = 1 := by
  unfold normDist gsum
  unfold gsum at h1
  field_simp

theorem normDist_tsum (d : Dist) (h2 : tsum d ≠ 0) : tsum (normDist d) = 1 := by
  unfold normDist tsum
  unfold tsum at h2
  field_simp

/-- C4: when every accumulated distribution has a non-zero sum,
normalize succeeds, each output bucket is the corresponding input bucket
divided by the sum of its own distribution (normDist), and each
normalized gene and trait distribution sums exactly to 1 (so certainly
within 1e-6). -/
theorem normalize_sums_to_one (people : List Person) (probs : String → Dist)
    (h : ∀ per ∈ people,
      gsum (probs per.name) ≠ 0 ∧ tsum (probs per.name) ≠ 0) :
    normalize people probs =
      .ok (people.map (fun per => (per.name, normDist (probs per.name)))) ∧
    ∀ per ∈ people,
      gsum (normDist (probs per.name)) = 1 ∧
      tsum (normDist (probs per.name)) = 1 := by
  constructor
  · induction people with
    | nil => rfl
    | cons hd tl ih =>
      have hhd := h hd (List.mem_cons_self hd tl)
      have htl := fun per hper => h per (List.mem_cons_of_mem hd hper)
      show normalize (hd :: tl) probs = _
      unfold normalize
      rw [normalizeDist_ok_of_ne (probs hd.name) hhd.1 hhd.2, ih htl]
      rfl
  · intro per hper
    exact ⟨normDist_gsum _ (h per hper).1, normDist_tsum _ (h per hper).2⟩

/-- C4 witness: one founder with strictly positive buckets. -/
theorem normalize_sums_to_one_witness :
    (∀ per ∈ popFounder,
      gsum ((fun _ => (⟨1, 2, 3, 4, 5⟩ : Dist)) per.name) ≠ 0 ∧
      tsum ((fun _ => (⟨1, 2, 3, 4, 5⟩ : Dist)) per.name) ≠ 0) ∧
    (normalize popFounder (fun _ => (⟨1, 2, 3, 4, 5⟩ : Dist)) =
      .ok (popFounder.map (fun per =>
        (per.name, normDist ((fun _ => (⟨1, 2, 3, 4, 5⟩ : Dist)) per.name)))) ∧
    ∀ per ∈ popFounder,
      gsum (normDist ((fun _ => (⟨1, 2, 3, 4, 5⟩ : Dist)) per.name)) = 1 ∧
      tsum (normDist ((fun _ => (⟨1, 2, 3, 4, 5⟩ : Dist)) per.name)) = 1) :=
  ⟨fun per _ => by constructor <;> norm_num [gsum, tsum],
   normalize_sums_to_one popFounder (fun _ => (⟨1, 2, 3, 4, 5⟩ : Dist))
     (fun per _ => by constructor <;> norm_num [gsum, tsum])⟩

theorem normalizeDist_zero (d : Dist) (h : gsum d = 0 ∨ tsum d = 0) :
    normalizeDist d = .error .zeroDivision := by
  unfold normalizeDist
  rcases h with h | h
  · rw [if_pos h]
  · by_cases hg : gsum d = 0
    · rw [if_pos hg]
    · rw [if_neg hg, if_pos h]

theorem normalizeDist_error_val (d : Dist) (e : PyError)
    (h : normalizeDist d = .error e) : e = .zeroDivision := by
  unfold normalizeDist at h
  by_cases hg : gsum d = 0
  · rw [if_pos hg] at h
    exact (Except.error.inj h).symm
  · rw [if_neg hg] at h
    by_cases ht : tsum d = 0
    · rw [if_pos ht] at h
      exact (Except.error.inj h).symm
    · rw [if_neg ht] at h
      exact absurd h (by simp)

/-- C5 counterexample: on all-zero accumulators the code raises the
plain ZeroDivisionError of the division, not a distinct
"unsatisfiable evidence" error. -/
theorem normalize_zero_not_distinct :
    normalize popFounder initProbs = Except.error PyError.zeroDivision ∧
    normalize popFounder initProbs ≠
      Except.error PyError.unsatisfiableEvidence := by
  have h : normalize popFounder initProbs =
      Except.error PyError.zeroDivision := by
    show normalize [⟨"a", none, none, none⟩] initProbs = _
    unfold normalize
    rw [normalizeDist_zero _ (Or.inl (by norm_num [initProbs, gsum]))]
  refine ⟨h, ?_⟩
  rw [h]
  intro hc
  exact PyError.noConfusion (Except.error.inj hc)

/-- C5 amended: if some individual of the population has a
pre-normalization distribution summing to zero, normalize fails — it
raises the division-by-zero error and never silently divides — but the
error is ZeroDivisionError, not a distinct "unsatisfiable evidence"
error (the source has no such guard or raise). -/
theorem normalize_zero_sum_error (people : List Person)
    (probs : String → Dist) (per : Person) (hmem : per ∈ people)
    (h : gsum (probs per.name) = 0 ∨ tsum (probs per.name) = 0) :
    normalize people probs = .error .zeroDivision := by
  induction people with
  | nil => cases hmem
  | cons hd tl ih =>
    show normalize (hd :: tl) probs = _
    unfold normalize
    rcases List.mem_cons.mp hmem with heq | htl
    · rw [heq] at h
      rw [normalizeDist_zero (probs hd.name) h]
    · cases hnd : normalizeDist (probs hd.name) with
      | error e => rw [normalizeDist_error_val _ _ hnd]
      | ok d =>
        rw [ih htl]

/-- C5 amended witness: the single founder with the all-zero belief
state. -/
theorem normalize_zero_sum_error_witness :
    (⟨"a", none, none, none⟩ : Person) ∈ popFounder ∧
    gsum (initProbs "a") = 0 ∧
    normalize popFounder initProbs = .error .zeroDivision :=
  ⟨by decide, by norm_num [initProbs, gsum],
   normalize_zero_sum_error popFounder initProbs ⟨"a", none, none, none⟩
     (by decide) (Or.inl (by norm_num [initProbs, gsum]))⟩

theorem update_traitF_of_mem (probs : String → Dist)
    (one_gene two_genes have_trait : List String) (q : ℚ) (name : String)
    (h : name ∈ have_trait) :
    (update probs one_gene two_genes have_trait q name).traitF =
      (probs name).traitF := by
  simp [update, h]

theorem foldl_preserves_traitF {α : Type} (l : List α)
    (f : (String → Dist) → α → (String → Dist)) (probs : String → Dist)
    (name : String)
    (hf : ∀ pr x, x ∈ l → ((f pr x) name).traitF = (pr name).traitF) :
    ((l.foldl f probs) name).traitF = (probs name).traitF := by
  induction l generalizing probs with
  | nil => rfl
  | cons hd tl ih =>
    rw [List.foldl_cons,
      ih (f probs hd) (fun pr x hx => hf pr x (List.mem_cons_of_mem hd hx))]
    exact hf probs hd (List.mem_cons_self hd tl)

theorem scoreTwo_traitF (people : List Person)
    (one_gene have_trait : List String) (probs : String → Dist)
    (name : String) (h : name ∈ have_trait) :
    (scoreTwo people one_gene have_trait probs name).traitF =
      (probs name).traitF := by
  unfold scoreTwo
  exact foldl_preserves_traitF _ _ probs name
    (fun pr tg _ => update_traitF_of_mem pr one_gene tg have_trait _ name h)

theorem scoreGene_traitF (people : List Person) (have_trait : List String)
    (probs : String → Dist) (name : String) (h : name ∈ have_trait) :
    (scoreGene people have_trait probs name).traitF = (probs name).traitF := by
  unfold scoreGene
  exact foldl_preserves_traitF _ _ probs name
    (fun pr og _ => scoreTwo_traitF people og have_trait pr name h)

theorem mem_of_not_fails (people : List Person) (have_trait : List String)
    (per : Person) (hper : per ∈ people) (htr : per.trait = some true)
    (h : fails_evidence people have_trait = false) :
    per.name ∈ have_trait := by
  unfold fails_evidence at h
  rw [List.any_eq_false] at h
  have hp := h per hper
  rw [htr] at hp
  cases hb : have_trait.contains per.name
  · rw [hb] at hp
    simp at hp
  · simpa using hb

theorem accumulate_traitF (people : List Person) (per : Person)
    (hper : per ∈ people) (htr : per.trait = some true) :
    (accumulate people per.name).traitF = 0 := by
  unfold accumulate
  rw [foldl_preserves_traitF _ _ initProbs per.name ?_]
  · rfl
  · intro pr ht _
    unfold scoreTrait
    cases hfe : fails_evidence people ht
    · rw [if_neg (by simp)]
      exact scoreGene_traitF people ht pr per.name
        (mem_of_not_fails people ht per hper htr hfe)
    · rw [if_pos rfl]

theorem normalize_mem (people : List Person) (probs : String → Dist)
    (out : List (String × Dist)) (hnorm : normalize people probs = .ok out)
    (per : Person) (hper : per ∈ people) :
    ∃ d, normalizeDist (probs per.name) = .ok d ∧ (per.name, d) ∈ out := by
  induction people generalizing out with
  | nil => cases hper
  | cons hd tl ih =>
    rw [show normalize (hd :: tl) probs =
      (match normalizeDist (probs hd.name) with
       | Except.error e => Except.error e
       | Except.ok d =>
         match normalize tl probs with
         | Except.error e => Except.error e
         | Except.ok o => Except.ok ((hd.name, d) :: o)) from rfl] at hnorm
    cases hnd : normalizeDist (probs hd.name) with
    | error e =>
      rw [hnd] at hnorm
      cases hnorm
    | ok d =>
      rw [hnd] at hnorm
      cases hrest : normalize tl probs with
      | error e =>
        rw [hrest] at hnorm
        cases hnorm
      | ok o =>
        rw [hrest] at hnorm
        have hout : (hd.name, d) :: o = out := Except.ok.inj hnorm
        rcases List.mem_cons.mp hper with heq | htl
        · refine ⟨d, ?_, ?_⟩
          · rw [heq]
            exact hnd
          · rw [← hout, heq]
            exact List.mem_cons_self _ _
        · obtain ⟨d2, hd2, hm2⟩ := ih o hrest htl
          exact ⟨d2, hd2, hout ▸ List.mem_cons_of_mem _ hm2⟩

theorem normalizeDist_traitF_zero (d d2 : Dist) (hF : d.traitF = 0)
    (h : normalizeDist d = .ok d2) : d2.traitT = 1 ∧ d2.traitF = 0 := by
  unfold normalizeDist at h
  by_cases hg : gsum d = 0
  · rw [if_pos hg] at h
    cases h
  · rw [if_neg hg] at h
    by_cases htz : tsum d = 0
    · rw [if_pos htz] at h
      cases h
    · rw [if_neg htz] at h
      have hts : tsum d = d.traitT := by
        unfold tsum
        rw [hF, add_zero]
      rw [← Except.ok.inj h]
      constructor
      · show d.traitT / tsum d = 1
        rw [hts]
        rw [hts] at htz
        field_simp
      · show d.traitF / tsum d = 0
        rw [hF]
        simp

/-- C6: an individual observed to exhibit the trait ends with output
trait distribution 1.0 on true and 0.0 on false: all surviving trait
subsets contain the individual, so the false bucket never accumulates
mass and normalization maps the true bucket to 1. -/
theorem trait_true_certain (people : List Person) (per : Person)
    (hper : per ∈ people) (htr : per.trait = some true)
    (out : List (String × Dist)) (hnorm : main_result people = .ok out) :
    ∃ d, (per.name, d) ∈ out ∧ d.traitT = 1 ∧ d.traitF = 0 := by
  obtain ⟨d, hnd, hmem⟩ :=
    normalize_mem people (accumulate people) out hnorm per hper
  obtain ⟨h1, h2⟩ := normalizeDist_traitF_zero _ _
    (accumulate_traitF people per hper htr) hnd
  exact ⟨d, hmem, h1, h2⟩

theorem normalize_singleton (per : Person) (probs : String → Dist) (d : Dist)
    (h : normalizeDist (probs per.name) = .ok d) :
    normalize [per] probs = .ok [(per.name, d)] := by
  show (match normalizeDist (probs per.name) with
    | Except.error e => Except.error e
    | Except.ok d =>
      match normalize [] probs with
      | Except.error e => Except.error e
      | Except.ok o => Except.ok ((per.name, d) :: o)) = _
  rw [h]
  rfl

/-- C6 witness: a single founder with trait evidence true. -/
theorem trait_true_certain_witness :
    (⟨"a", none, none, some true⟩ : Person) ∈ popTraitTrue ∧
    (∃ d, ("a", d) ∈ [("a", (⟨96/329, 24/47, 65/329, 1, 0⟩ : Dist))] ∧
      d.traitT = 1 ∧ d.traitF = 0) := by
  have haccum : accumulate popTraitTrue "a" =
      ⟨6/625, 21/1250, 13/2000, 329/10000, 0⟩ := by
    simp [accumulate, powerset, names, popTraitTrue, scoreTrait, scoreGene,
      scoreTwo, fails_evidence, update, initProbs, joint_probability,
      geneTerm, geneCount, inheritProb, PROBS_gene, PROBS_trait,
      PROBS_mutation]
    norm_num
  have hnd : normalizeDist (⟨6/625, 21/1250, 13/2000, 329/10000, 0⟩ : Dist) =
      .ok ⟨96/329, 24/47, 65/329, 1, 0⟩ := by
    rw [normalizeDist_ok_of_ne _ (by norm_num [gsum]) (by norm_num [tsum])]
    norm_num [normDist, gsum, tsum]
  have hnorm : main_result popTraitTrue =
      .ok [("a", (⟨96/329, 24/47, 65/329, 1, 0⟩ : Dist))] := by
    show normalize popTraitTrue (accumulate popTraitTrue) = _
    exact normalize_singleton ⟨"a", none, none, some true⟩ _ _
      (by rw [show (⟨"a", none, none, some true⟩ : Person).name = "a" from rfl,
        haccum]; exact hnd)
  exact ⟨by decide,
    trait_true_certain popTraitTrue ⟨"a", none, none, some true⟩ (by decide)
      rfl _ hnorm⟩

/-- C7: for a population of one founder with no evidence, the final
normalized gene-count distribution is exactly the unconditional prior
table: PROBS_gene g for each count g. -/
theorem founder_prior (nm : String) :
    main_result [⟨nm, none, none, none⟩] =
      .ok [(nm, ⟨PROBS_gene 0, PROBS_gene 1, PROBS_gene 2,
        329/10000, 9671/10000⟩)] := by
  have haccum : accumulate [⟨nm, none, none, none⟩] nm =
      ⟨24/25, 3/100, 1/100, 329/10000, 9671/10000⟩ := by
    simp [accumulate, powerset, names, scoreTrait, scoreGene,
      scoreTwo, fails_evidence, update, initProbs, joint_probability,
      geneTerm, geneCount, inheritProb, PROBS_gene, PROBS_trait,
      PROBS_mutation]
    norm_num
  show normalize [⟨nm, none, none, none⟩]
    (accumulate [⟨nm, none, none, none⟩]) = _
  refine normalize_singleton ⟨nm, none, none, none⟩ _ _ ?_
  rw [show (⟨nm, none, none, none⟩ : Person).name = nm from rfl, haccum]
  rw [normalizeDist_ok_of_ne _ (by norm_num [gsum]) (by norm_num [tsum])]
  norm_num [normDist, gsum, tsum, PROBS_gene]

theorem swap_names (people people' : List Person)
    (h : List.Forall₂ SwapRel people people') :
    names people' = names people := by
  induction h with
  | nil => rfl
  | cons hrel htl ih =>
    unfold names at ih ⊢
    rw [List.map_cons, List.map_cons, ih, hrel.1]

theorem swap_fails_evidence (people people' : List Person)
    (h : List.Forall₂ SwapRel people people') (have_trait : List String) :
    fails_evidence people' have_trait = fails_evidence people have_trait := by
  induction h with
  | nil => rfl
  | cons hrel htl ih =>
    unfold fails_evidence at ih ⊢
    rw [List.any_cons, List.any_cons, ih, hrel.1, hrel.2.1]

theorem swap_geneTerm (one_gene two_genes : List String) (a b : Person)
    (h : SwapRel a b) :
    geneTerm one_gene two_genes b = geneTerm one_gene two_genes a := by
  obtain ⟨hn, _, hpar⟩ := h
  unfold geneTerm
  rw [hn]
  rcases hpar with ⟨hm, hf⟩ | ⟨hm, hf⟩
  · rw [hm, hf]
  · rw [hm, hf]
    cases ham : a.mother with
    | none =>
      cases haf : a.father with
      | none => rfl
      | some f => rfl
    | some m =>
      cases haf : a.father with
      | none => rfl
      | some f =>
        generalize geneCount one_gene two_genes a.name = g
        rcases g with _ | (_ | (_ | g)) <;> dsimp only <;> ring

theorem swap_joint (one_gene two_genes have_trait : List String)
    (people people' : List Person)
    (h : List.Forall₂ SwapRel people people') :
    joint_probability people' one_gene two_genes have_trait =
      joint_probability people one_gene two_genes have_trait := by
  unfold joint_probability
  have main : ∀ acc : ℚ,
      people'.foldl (fun acc per =>
        acc * (geneTerm one_gene two_genes per *
          PROBS_trait (geneCount one_gene two_genes per.name)
            (have_trait.contains per.name))) acc =
      people.foldl (fun acc per =>
        acc * (geneTerm one_gene two_genes per *
          PROBS_trait (geneCount one_gene two_genes per.name)
            (have_trait.contains per.name))) acc := by
    induction h with
    | nil => intro acc; rfl
    | cons hrel htl ih =>
      intro acc
      rw [List.foldl_cons, List.foldl_cons,
        swap_geneTerm one_gene two_genes _ _ hrel, hrel.1, ih]
  exact main 1

theorem swap_scoreTwo (people people' : List Person)
    (h : List.Forall₂ SwapRel people people')
    (one_gene have_trait : List String) (probs : String → Dist) :
    scoreTwo people' one_gene have_trait probs =
      scoreTwo people one_gene have_trait probs := by
  unfold scoreTwo
  rw [swap_names people people' h]
  exact foldl_congr_mem _ _ _ probs (fun pr tg _ => by
    rw [swap_joint one_gene tg have_trait people people' h])

theorem swap_scoreGene (people people' : List Person)
    (h : List.Forall₂ SwapRel people people')
    (have_trait : List String) (probs : String → Dist) :
    scoreGene people' have_trait probs = scoreGene people have_trait probs := by
  unfold scoreGene
  rw [swap_names people people' h]
  exact foldl_congr_mem _ _ _ probs (fun pr og _ =>
    swap_scoreTwo people people' h og have_trait pr)

theorem swap_scoreTrait (people people' : List Person)
    (h : List.Forall₂ SwapRel people people')
    (probs : String → Dist) (have_trait : List String) :
    scoreTrait people' probs have_trait = scoreTrait people probs have_trait := by
  unfold scoreTrait
  rw [swap_fails_evidence people people' h have_trait]
  cases hfe : fails_evidence people have_trait
  · rw [if_neg (by simp), if_neg (by simp)]
    exact swap_scoreGene people people' h have_trait probs
  · rfl

theorem swap_accumulate (people people' : List Person)
    (h : List.Forall₂ SwapRel people people') :
    accumulate people' = accumulate people := by
  unfold accumulate
  rw [swap_names people people' h]
  exact foldl_congr_mem _ _ _ initProbs (fun pr ht _ =>
    swap_scoreTrait people people' h pr ht)

theorem swap_normalize (people people' : List Person)
    (h : List.Forall₂ SwapRel people people') (probs : String → Dist) :
    normalize people' probs = normalize people probs := by
  induction h with
  | nil => rfl
  | cons hrel htl ih =>
    unfold normalize
    rw [hrel.1, ih]

/-- C8: exchanging which parent is recorded as mother and which as
father, for any children, changes neither the value of joint_probability
(the inheritance formula is symmetric in the two parents) nor the final
output distributions of the whole run. -/
theorem swap_parents_invariant (people people' : List Person)
    (h : List.Forall₂ SwapRel people people') :
    (∀ one_gene two_genes have_trait,
      joint_probability people' one_gene two_genes have_trait =
        joint_probability people one_gene two_genes have_trait) ∧
    main_result people' = main_result people := by
  refine ⟨fun og tg ht => swap_joint og tg ht people people' h, ?_⟩
  unfold main_result
  rw [swap_accumulate people people' h,
    swap_normalize people people' h (accumulate people)]

/-- C8 witness: the three-person family with the roles of the two
parents of the child exchanged. -/
theorem swap_parents_invariant_witness :
    List.Forall₂ SwapRel famA famASwap ∧
    joint_probability famASwap ["Carl"] ["Alice"] ["Carl"] =
      joint_probability famA ["Carl"] ["Alice"] ["Carl"] ∧
    main_result famASwap = main_result famA := by
  have hrel : List.Forall₂ SwapRel famA famASwap :=
    .cons ⟨rfl, rfl, Or.inl ⟨rfl, rfl⟩⟩
      (.cons ⟨rfl, rfl, Or.inl ⟨rfl, rfl⟩⟩
        (.cons ⟨rfl, rfl, Or.inr ⟨rfl, rfl⟩⟩ .nil))
  exact ⟨hrel,
    (swap_parents_invariant famA famASwap hrel).1 ["Carl"] ["Alice"] ["Carl"],
    (swap_parents_invariant famA famASwap hrel).2⟩

end Heredity
